import Mathlib

/-!
Shallow embedding of the easy-nyc-ingest tiered ingestion pipeline:
record batches (frames), the schema transform engine
(`pipeline/lib/polars_helpers.py` and `pipeline/lib/asset_factories.py`),
the retrying/caching fetch client (`socrata_resource.py`), the
offset-paging raw loop, monthly windowing, the parquet IO manager
(`polars_parquet_io_manager.py`) and warehouse glob autodetection (`w.py`).
-/

set_option maxRecDepth 8000

namespace EasyNyc

/-- Scalar cell values of a record batch (string / int / float / bool /
timestamp / null).  Floats and timestamps keep an opaque payload: no claim
depends on their arithmetic. -/
inductive Val where
| vnull
| vstr (s : String)
| vint (n : Int)
| vfloat (n : Int)
| vbool (b : Bool)
| vdatetime (iso : String)
deriving DecidableEq, Repr

/-- Column dtypes of the dataframe engine. -/
inductive Dtype where
| dnull
| dstr
| dint
| dfloat
| dbool
| ddatetime
deriving DecidableEq, Repr

/-- A named, typed column: a vector of cell values. -/
structure Col where
  name : String
  dtype : Dtype
  vals : List Val
deriving DecidableEq, Repr

/-- A record batch: ordered columns plus the row count. -/
structure Frame where
  cols : List Col
  height : Nat
deriving DecidableEq, Repr

def Frame.names (f : Frame) : List String := f.cols.map Col.name

/-- Well-formedness: every column has `height` cells and names are distinct. -/
def Frame.wf (f : Frame) : Prop :=
  (∀ c ∈ f.cols, c.vals.length = f.height) ∧ f.names.Nodup

instance (f : Frame) : Decidable f.wf := by
  unfold Frame.wf
  infer_instance

/-- One character of `to_snake_case`: spaces and hyphens become
underscores, everything else is lowercased. -/
def snakeChar (c : Char) : Char :=
  if c = ' ' ∨ c = '-' then '_' else c.toLower

/-- Characters kept by the `[^0-9a-z_]` strip. -/
def snakeKeep (c : Char) : Bool :=
  c.isDigit || (('a' ≤ c) && (c ≤ 'z')) || c = '_'

/-- `to_snake_case` column-name normalization from
`pipeline/lib/polars_helpers.py`: lowercase, spaces/hyphens to
underscores, strip characters outside `[0-9a-z_]`. -/
def snake_name (s : String) : String :=
  String.mk ((s.toList.map snakeChar).filter snakeKeep)

/-- `to_snake_case` applied to a whole frame. -/
def to_snake_case (f : Frame) : Frame :=
  ⟨f.cols.map (fun c => { c with name := snake_name c.name }), f.height⟩

/-- `lf.rename(mapping)` with polars' default strict behavior: fails
(`none`) when a mapping key names no existing column. -/
def rename_strict (f : Frame) (m : List (String × String)) : Option Frame :=
  if m.all (fun kv => f.names.contains kv.1) then
    some ⟨f.cols.map (fun c => { c with name := (m.lookup c.name).getD c.name }), f.height⟩
  else none

/-- Digits of a numeral, most significant first. -/
def digitsToNat : List Char → Option Nat
| [] => none
| l => l.foldl (fun acc c => acc.bind (fun n =>
    if c.isDigit then some (n * 10 + (c.toNat - 48)) else none)) (some 0)

/-- Modelled interface of the engine's integer parser: optional sign then
decimal digits, `none` on anything else. -/
def parseInt (s : String) : Option Int :=
  match s.toList with
  | '-' :: rest => (digitsToNat rest).map (fun n => -(n : Int))
  | '+' :: rest => (digitsToNat rest).map (fun n => (n : Int))
  | l => (digitsToNat l).map (fun n => (n : Int))

/-- Does a string look like an ISO datetime (leading `YYYY-MM-DD`)?
Modelled interface of the engine's datetime parser. -/
def looksLikeDatetime (s : String) : Bool :=
  match s.toList with
  | a::b::c::d::e::f::g::h::i::j::_ =>
    a.isDigit && b.isDigit && c.isDigit && d.isDigit && e = '-' &&
    f.isDigit && g.isDigit && h = '-' && i.isDigit && j.isDigit
  | _ => false

/-- Modelled interface of the dataframe engine:
`pl.col(c).cast(dtype, strict=False)` on one cell.  Non-strict: a value
that fails to parse becomes `vnull`, never an error. -/
def castVal (dt : Dtype) (v : Val) : Val :=
  match dt, v with
  | _, .vnull => .vnull
  | .dstr, .vstr s => .vstr s
  | .dstr, .vint n => .vstr (toString n)
  | .dstr, .vfloat n => .vstr (toString n)
  | .dstr, .vbool b => .vstr (toString b)
  | .dstr, .vdatetime s => .vstr s
  | .dint, .vint n => .vint n
  | .dint, .vstr s => (parseInt s).elim .vnull .vint
  | .dint, .vbool b => .vint (if b then 1 else 0)
  | .dint, .vfloat n => .vint n
  | .dfloat, .vfloat n => .vfloat n
  | .dfloat, .vint n => .vfloat n
  | .dfloat, .vstr s => (parseInt s).elim .vnull .vfloat
  | .dfloat, .vbool b => .vfloat (if b then 1 else 0)
  | .dbool, .vbool b => .vbool b
  | .dbool, .vstr s =>
      if s = "true" then .vbool true else if s = "false" then .vbool false else .vnull
  | .dbool, .vint n => .vbool (n != 0)
  | .ddatetime, .vdatetime s => .vdatetime s
  | .ddatetime, .vstr s => if looksLikeDatetime s then .vdatetime s else .vnull
  | _, _ => .vnull

/-- Non-strict cast of one named column (identity when the name is absent
is handled by the caller's membership check, as in the source). -/
def cast_col (f : Frame) (name : String) (dt : Dtype) : Frame :=
  ⟨f.cols.map (fun c =>
      if c.name = name then ⟨c.name, dt, c.vals.map (castVal dt)⟩ else c),
   f.height⟩

/-- Schema config from the asset files: rename map, the per-kind cast
column sets, and `dtype_overrides` (the only key `generic_transform`
actually casts by). -/
structure SchemaCfg where
  rename_map : List (String × String) := []
  date_cols : List String := []
  int_cols : List String := []
  float_cols : List String := []
  bool_cols : List String := []
  dtype_overrides : List (String × Dtype) := []

/-- `generic_transform` from `pipeline/lib/polars_helpers.py`: snake-case
all names, apply `rename_map` (strict), apply the `dtype_overrides`
non-strict casts for columns present, then the optional custom function.
Note that `date_cols` / `int_cols` / `float_cols` / `bool_cols` are never
read here. -/
def generic_transform (f : Frame) (cfg : SchemaCfg)
    (custom : Option (Frame → Frame)) : Option Frame :=
  let f1 := to_snake_case f
  let f2opt := if cfg.rename_map.isEmpty then some f1 else rename_strict f1 cfg.rename_map
  f2opt.map (fun f2 =>
    let f3 := cfg.dtype_overrides.foldl
      (fun acc cd => if acc.names.contains cd.1 then cast_col acc cd.1 cd.2 else acc) f2
    match custom with
    | some g => g f3
    | none => f3)

/-- `with_columns(pl.lit(None).cast(dt).alias(name))`: overwrite in place
when the name exists, otherwise append at the end. -/
def with_null_col (f : Frame) (name : String) (dt : Dtype) : Frame :=
  if f.names.contains name then
    ⟨f.cols.map (fun c =>
        if c.name = name then ⟨name, dt, List.replicate f.height Val.vnull⟩ else c),
     f.height⟩
  else
    ⟨f.cols ++ [⟨name, dt, List.replicate f.height Val.vnull⟩], f.height⟩

/-- `with_columns(pl.col(src).alias(dst))`: copy column `src` into `dst`
(overwrite in place or append), `none` when `src` is missing. -/
def with_copy_col (f : Frame) (src dst : String) : Option Frame :=
  match f.cols.find? (fun c => c.name = src) with
  | none => none
  | some s =>
    if f.names.contains dst then
      some ⟨f.cols.map (fun c => if c.name = dst then ⟨dst, s.dtype, s.vals⟩ else c), f.height⟩
    else
      some ⟨f.cols ++ [⟨dst, s.dtype, s.vals⟩], f.height⟩

/-- `lf.select(names)`: project columns by name in the given order,
`none` when a requested name is missing. -/
def select_cols (f : Frame) (names : List String) : Option Frame :=
  let picked := names.map (fun n => f.cols.find? (fun c => c.name = n))
  if picked.all Option.isSome then some ⟨picked.reduceOption, f.height⟩ else none

/-- Backquote character (for `_extract_order_token`'s strip set). -/
def backquoteChar : Char := Char.ofNat 96

/-- Double-quote character. -/
def doubleQuoteChar : Char := Char.ofNat 34

/-- Python `str.strip()`: drop whitespace from both ends. -/
def stripWs (l : List Char) : List Char :=
  ((l.dropWhile Char.isWhitespace).reverse.dropWhile Char.isWhitespace).reverse

/-- Python `str.strip` over the two quote characters. -/
def stripQuotes (l : List Char) : List Char :=
  ((l.dropWhile (fun c => c == backquoteChar || c == doubleQuoteChar)).reverse.dropWhile
      (fun c => c == backquoteChar || c == doubleQuoteChar)).reverse

/-- `_extract_order_token` from `asset_factories.py`: first
whitespace-separated token of the ORDER BY expression, with backquotes
and double quotes stripped from its ends. -/
def extract_order_token (order_field : String) : String :=
  String.mk (stripQuotes ((stripWs order_field.toList).takeWhile (fun c => !c.isWhitespace)))

/-- `_auto_transform` from `asset_factories.py`: run `generic_transform`
with the ordering field spliced into `date_cols`, inject the ordering
field as an all-null datetime column if it never appeared, copy it into
`date_column`, and promote `date_column` to the first position. -/
def auto_transform (schema_cfg : SchemaCfg) (custom : Option (Frame → Frame))
    (order_field : String) (f : Frame) : Option Frame :=
  let raw_token := extract_order_token order_field
  let token_snake := snake_name raw_token
  let final_field := (schema_cfg.rename_map.lookup token_snake).getD token_snake
  let dcs := schema_cfg.date_cols
  let dcs' :=
    if dcs.contains raw_token then
      dcs.map (fun c => if c = raw_token then final_field else c)
    else if dcs.contains final_field then dcs
    else dcs ++ [final_field]
  let cfg := { schema_cfg with date_cols := dcs' }
  (generic_transform f cfg custom).bind (fun lf2a =>
    let lf2 :=
      if lf2a.names.contains final_field then lf2a
      else with_null_col lf2a final_field .ddatetime
    let cols := lf2.names
    if cols.contains final_field then
      if cols.contains "date_column" then
        select_cols lf2 ("date_column" :: cols.filter (fun c => c ≠ "date_column"))
      else
        (with_copy_col lf2 final_field "date_column").bind
          (fun g => select_cols g ("date_column" :: cols))
    else some lf2)

/-! ### Fetch client (`pipeline/defs/resources/socrata_resource.py`) -/

/-- Query parameters of one request (exact-match equality, as the cache
compares them). -/
abbrev Params := List (String × String)

/-- One decoded record: field name to scalar value. -/
abbrev Record := List (String × Val)

/-- Outcome of one transport attempt, abstracting `sess.get` plus payload
decoding: either a raised `ReadTimeout`/`ConnectionError`, or an HTTP 200
whose decoded body is a list of records (for geo endpoints the
`features[].properties` extraction has already been applied). -/
inductive TransportResult where
| terr
| tok (payload : List Record)
deriving DecidableEq, Repr

/-- `_MAX_READ_RETRIES` from `socrata_resource.py`. -/
def maxReadRetries : Nat := 3

/-- `_MAX_EMPTY_RETRIES` from `socrata_resource.py`. -/
def maxEmptyRetries : Nat := 2

/-- Result of `fetch_data`: either the propagated transport error or the
payload, along with the number of GET attempts issued. -/
inductive FetchOut where
| raised (attempts : Nat)
| success (payload : List Record) (attempts : Nat)
deriving DecidableEq, Repr

/-- The `while True` retry loop of `fetch_data`, parameterized by the
transport outcome of each numbered attempt.  A read error retries while
`read_attempt ≤ _MAX_READ_RETRIES`, then propagates; an empty payload
retries while `read_attempt ≤ _MAX_EMPTY_RETRIES`, then is accepted. -/
def fetch_go (t : Nat → TransportResult) (attempt : Nat) : FetchOut :=
  match t attempt with
  | .terr =>
    if attempt > maxReadRetries then .raised attempt
    else fetch_go t (attempt + 1)
  | .tok payload =>
    if payload ≠ [] ∨ attempt > maxEmptyRetries then .success payload attempt
    else fetch_go t (attempt + 1)
termination_by maxReadRetries + 1 - attempt
decreasing_by
  all_goals simp [maxReadRetries, maxEmptyRetries] at *
  all_goals omega

/-- The single cache slot: `(endpoint, query_params, payload)` of the most
recent successful fetch, or empty. -/
abbrev CacheSlot := Option (String × Params × List Record)

/-- Result of one `fetch_data` call: outcome plus the cache slot after the
call. -/
structure FetchResult where
  out : FetchOut
  cache : CacheSlot
deriving DecidableEq, Repr

/-- Network path of `fetch_data`: run the retry loop starting at attempt
1 and, on success, store `(endpoint, query_params, payload)` in the cache
slot; a propagated error leaves the slot untouched. -/
def fetch_net (cache : CacheSlot) (endpoint : String) (query_params : Params)
    (t : Nat → TransportResult) : FetchResult :=
  match fetch_go t 1 with
  | .raised n => ⟨.raised n, cache⟩
  | .success payload n => ⟨.success payload n, some (endpoint, query_params, payload)⟩

/-- `SocrataResource.fetch_data`: answer from the one-slot cache on an
exact `(endpoint, query_params)` match with no network attempt (0 GETs);
otherwise take the network path. -/
def fetch_data (cache : CacheSlot) (endpoint : String) (query_params : Params)
    (t : Nat → TransportResult) : FetchResult :=
  match cache with
  | some (e, p, payload) =>
    if e = endpoint ∧ p = query_params then ⟨.success payload 0, cache⟩
    else fetch_net cache endpoint query_params t
  | none => fetch_net cache endpoint query_params t

/-- Config of a batch whose ordering field `ts` is declared in `date_cols`. -/
def cfgTs : SchemaCfg := { date_cols := ["ts"] }

/-- A batch where the ordering field `ts` is present as a string column. -/
def frameTsPresent : Frame := ⟨[⟨"ts", .dstr, [.vstr "2023-05-01T00:00:00"]⟩], 1⟩

/-- A batch where the ordering field `ts` is entirely absent. -/
def frameTsAbsent : Frame := ⟨[⟨"Other Col", .dstr, [.vstr "x"]⟩], 1⟩

/-- Config declaring an `int_cols` cast for `fiscal_year`. -/
def cfgIntCast : SchemaCfg := { date_cols := ["month"], int_cols := ["fiscal_year"] }

/-- A batch carrying `Fiscal Year` as a string column. -/
def frameFiscal : Frame := ⟨[⟨"Fiscal Year", .dstr, [.vstr "2020"]⟩], 1⟩

/-- A transport that raises on the first two attempts and succeeds from
the third on. -/
def tFailTwice : Nat → TransportResult := fun n =>
  if n ≤ 2 then .terr else .tok [[("id", Val.vstr "1")]]

/-- A transport that raises on every attempt. -/
def tAlwaysErr : Nat → TransportResult := fun _ => .terr

/-- A transport that succeeds immediately with a non-empty payload. -/
def tOkOnce : Nat → TransportResult := fun _ => .tok [[("id", Val.vint 7)]]

/-! ### Medium-tier raw ingestion loop (`build_medium_socrata_asset.raw_asset`) -/

/-- One raw chunk write of the medium-tier loop: the batch number passed
to `write_chunk`, the offset the page was fetched at, and the page. -/
structure ChunkWrite where
  batch : Nat
  offset : Nat
  page : List Record
deriving DecidableEq, Repr

/-- The `while True` offset-paging loop of the medium-tier `raw_asset`,
with `pages` giving the records fetched at each `$offset`.  `fuel` bounds
how many iterations we inspect (the source loop is unbounded); `none`
means the loop did not terminate within `fuel` iterations. -/
def medium_raw_go (pages : Nat → List Record) (limit : Nat) :
    Nat → Nat → List ChunkWrite → Nat → Option (List ChunkWrite)
| _, _, _, 0 => none
| offset, batch, acc, fuel + 1 =>
  let recs := pages offset
  if recs = [] then some acc.reverse
  else medium_raw_go pages limit (offset + limit) (batch + 1)
    (⟨batch + 1, offset, recs⟩ :: acc) fuel

/-- Medium-tier raw ingestion: offset starts at 0, batch counter at 0. -/
def medium_raw (pages : Nat → List Record) (limit : Nat) (fuel : Nat) :
    Option (List ChunkWrite) :=
  medium_raw_go pages limit 0 0 [] fuel

/-- Pages used by the medium-tier witness: three non-empty pages at
offsets 0, 2, 4, then empty. -/
def pages3W : Nat → List Record := fun o =>
  if o < 6 then [[("v", Val.vint o)]] else []

/-- Pages that are never empty at any offset. -/
def pagesInfW : Nat → List Record := fun _ => [[("v", Val.vint 0)]]

/-! ### Consolidation: union-by-name with dtype relaxation -/

/-- Dtype supertype relaxation, modelled from the engine's
`diagonal_relaxed` concat interface: equal types stay, null yields the
other side, numeric/bool pairs widen, anything else falls back to
string. -/
def relaxDtype (d e : Dtype) : Dtype :=
  if d = e then d
  else match d, e with
  | .dnull, x => x
  | x, .dnull => x
  | .dint, .dfloat => .dfloat
  | .dfloat, .dint => .dfloat
  | .dbool, .dint => .dint
  | .dint, .dbool => .dint
  | .dbool, .dfloat => .dfloat
  | .dfloat, .dbool => .dfloat
  | _, _ => .dstr

/-- Column-name union in order of first occurrence. -/
def unionNames (fs : List Frame) : List String :=
  fs.foldl (fun acc f => acc ++ (f.names.filter (fun n => !acc.contains n))) []

/-- Relaxed supertype of the column named `n` across the frames (a frame
missing the column contributes the null dtype). -/
def unionDtype (fs : List Frame) (n : String) : Dtype :=
  fs.foldl (fun acc f =>
    match f.cols.find? (fun c => c.name == n) with
    | some c => relaxDtype acc c.dtype
    | none => acc) Dtype.dnull

/-- The merged column named `n`: each frame contributes its cells cast to
the relaxed dtype, or nulls when it lacks the column. -/
def unionCol (fs : List Frame) (n : String) : Col :=
  let dt := unionDtype fs n
  ⟨n, dt, fs.flatMap (fun f =>
    match f.cols.find? (fun c => c.name == n) with
    | some c => c.vals.map (castVal dt)
    | none => List.replicate f.height Val.vnull)⟩

/-- `pl.concat(fs, how="diagonal_relaxed")` (modelled engine interface):
union columns by name, pad a frame's missing columns with nulls, relax
dtypes to a common supertype. -/
def concat_diagonal_relaxed (fs : List Frame) : Frame :=
  ⟨(unionNames fs).map (unionCol fs), (fs.map Frame.height).sum⟩

/-- First frame of the C6 witness: has column `a`, lacks `x`. -/
def f1W : Frame := ⟨[⟨"a", .dint, [.vint 1]⟩], 1⟩

/-- Second frame of the C6 witness: has both `a` and `x`. -/
def f2W : Frame := ⟨[⟨"a", .dint, [.vint 2]⟩, ⟨"x", .dstr, [.vstr "q"]⟩], 1⟩

/-! ### Dates and monthly windows (`build_large_socrata_asset`) -/

/-- A proleptic-Gregorian calendar date.  The source passes midnight
`datetime` values; time-of-day plays no role in the windowing and the
`$where` formatter prints a literal `T00:00:00`. -/
structure PyDate where
  y : Nat
  m : Nat
  d : Nat
deriving DecidableEq, Repr

/-- Gregorian leap-year rule. -/
def isLeap (y : Nat) : Bool :=
  (y % 4 == 0 && y % 100 != 0) || y % 400 == 0

/-- Days in a month. -/
def daysInMonth (y m : Nat) : Nat :=
  if m = 2 then (if isLeap y then 29 else 28)
  else if m = 4 ∨ m = 6 ∨ m = 9 ∨ m = 11 then 30
  else 31

/-- The following calendar day. -/
def nextDay (c : PyDate) : PyDate :=
  if c.d < daysInMonth c.y c.m then ⟨c.y, c.m, c.d + 1⟩
  else if c.m < 12 then ⟨c.y, c.m + 1, 1⟩
  else ⟨c.y + 1, 1, 1⟩

/-- `datetime + timedelta(days=n)`. -/
def addDays (c : PyDate) : Nat → PyDate
| 0 => c
| n + 1 => addDays (nextDay c) n

/-- `datetime.replace(day=1)`. -/
def replaceDay1 (c : PyDate) : PyDate := ⟨c.y, c.m, 1⟩

/-- Python `datetime <` comparison on dates. -/
def dateLt (a b : PyDate) : Bool :=
  decide (a.y < b.y ∨ (a.y = b.y ∧ (a.m < b.m ∨ (a.m = b.m ∧ a.d < b.d))))

/-- The first day of the month after `c`'s month. -/
def firstOfNextMonth (c : PyDate) : PyDate :=
  if c.m < 12 then ⟨c.y, c.m + 1, 1⟩ else ⟨c.y + 1, 1, 1⟩

/-- Linear month index, for fuel accounting. -/
def monthIdx (c : PyDate) : Nat := 12 * c.y + c.m

/-- `_monthly_windows`' loop: while `cur < end`, step to
`(cur + 32 days).replace(day=1)` and emit the window.  `fuel` bounds the
iterations we inspect; `none` means fuel ran out mid-loop. -/
def monthly_windows_go (e : PyDate) : PyDate → Nat → Option (List (PyDate × PyDate))
| cur, fuel =>
  if dateLt cur e then
    match fuel with
    | 0 => none
    | f + 1 =>
      let nxt := replaceDay1 (addDays cur 32)
      (monthly_windows_go e nxt f).map (fun ws => (cur, nxt) :: ws)
  else some []

/-- `_monthly_windows()` from `build_large_socrata_asset`: start from
`start_date.replace(day=1)`. -/
def monthly_windows (start e : PyDate) (fuel : Nat) : Option (List (PyDate × PyDate)) :=
  monthly_windows_go e (replaceDay1 start) fuel

/-- Decimal digit character. -/
def digitChar (n : Nat) : Char := Char.ofNat (48 + n % 10)

/-- `%m` / `%d` strftime field: two digits, zero padded. -/
def pad2 (n : Nat) : String := String.mk [digitChar (n / 10), digitChar n]

/-- `%Y` strftime field: four digits, zero padded. -/
def pad4 (n : Nat) : String :=
  String.mk [digitChar (n / 1000), digitChar (n / 100), digitChar (n / 10), digitChar n]

/-- `f"{d:%Y-%m-%dT00:00:00}"` — the time part is a literal midnight. -/
def fmtWindowTs (c : PyDate) : String :=
  pad4 c.y ++ "-" ++ pad2 c.m ++ "-" ++ pad2 c.d ++ "T00:00:00"

/-- The `$where` clause of one monthly window in the large-tier raw
loop: ordering field at or after the window start and strictly before
the window end (a half-open `[start, end)` constraint). -/
def window_where_clause (raw_token : String) (ws we : PyDate) : String :=
  raw_token ++ " >= '" ++ fmtWindowTs ws ++ "' AND " ++
    raw_token ++ " < '" ++ fmtWindowTs we ++ "'"

/-- The `$where` clauses issued by the large-tier raw asset, one per
monthly window, over the extracted ordering token. -/
def large_raw_where_clauses (order_field : String) (start e : PyDate) (fuel : Nat) :
    Option (List String) :=
  (monthly_windows start e fuel).map (fun W =>
    W.map (fun w => window_where_clause (extract_order_token order_field) w.1 w.2))

/-! ### Parquet IO manager (`polars_parquet_io_manager.py`) -/

/-- The three IO-manager modes. -/
inductive IoMode where
| single
| flat_chunk
| hive_chunk
deriving DecidableEq, Repr

/-- `_drop_all_null_columns`: keep the columns whose null count is below
the row count. -/
def drop_all_null_columns (f : Frame) : Frame :=
  ⟨f.cols.filter (fun c => (c.vals.countP (fun v => v == Val.vnull)) < f.height), f.height⟩

/-- Decimal rendering of a natural number (fuel-based digit recursion). -/
def natStrAux : Nat → Nat → List Char
| 0, _ => []
| fuel + 1, n =>
  if n < 10 then [digitChar n]
  else natStrAux fuel (n / 10) ++ [digitChar n]

/-- Python `str(n)` for naturals. -/
def natStr (n : Nat) : String := String.mk (natStrAux (n + 1) n)

/-- `os.path.dirname`. -/
def dirname (p : String) : String :=
  String.mk (((p.toList.reverse.dropWhile (fun c => !(c == '/'))).drop 1).reverse)

/-- `_path` for `single` mode: `<base>/<asset>/<asset>.parquet`. -/
def single_path (base_dir asset : String) : String :=
  base_dir ++ "/" ++ asset ++ "/" ++ asset ++ ".parquet"

/-- `PolarsParquetIOManager._path`: pure path construction; `none` models
an assertion failure (missing batch or year for a chunk mode). -/
def path_for (base_dir : String) (mode : IoMode) (asset : String)
    (batch year month : Option Nat) : Option String :=
  match mode with
  | .single => some (single_path base_dir asset)
  | .flat_chunk =>
    match batch with
    | none => none
    | some b => some (base_dir ++ "/" ++ asset ++ "/" ++ asset ++ "_" ++ natStr b ++ ".parquet")
  | .hive_chunk =>
    match year with
    | none => none
    | some yr =>
      match batch with
      | none => none
      | some b =>
        match month with
        | some mo =>
          some (base_dir ++ "/" ++ asset ++ "/year=" ++ pad4 yr ++ "/month=" ++ pad2 mo ++
            "/" ++ asset ++ "_" ++ pad4 yr ++ pad2 mo ++ "_" ++ natStr b ++ ".parquet")
        | none =>
          some (base_dir ++ "/" ++ asset ++ "/year=" ++ pad4 yr ++
            "/" ++ asset ++ "_" ++ pad4 yr ++ "_" ++ natStr b ++ ".parquet")

/-- One log call of the IO manager. -/
inductive LogEntry where
| wroteRows (mode : IoMode) (rows : Nat) (path : String)
| streamedSingle (path : String)
| droppedAllNull (count : Nat) (names : List String)
| wroteSingle (path : String)
deriving DecidableEq, Repr

/-- One filesystem side effect of the IO manager. -/
inductive FsEffect where
| mkdirs (dir : String)
| writeParquet (path : String) (f : Frame)
| sinkParquet (path : String) (f : Frame)
deriving DecidableEq, Repr

/-- Success, or a raised `RuntimeError` with its message. -/
inductive WriteResult where
| ok
| error (msg : String)
deriving DecidableEq, Repr

/-- Result of one write call: outcome, the filesystem effects in order,
and the log entries in order. -/
structure WriteOutcome where
  result : WriteResult
  effects : List FsEffect
  logs : List LogEntry
deriving DecidableEq, Repr

/-- `write_chunk`: refuses `single` mode before touching the filesystem;
otherwise resolves the path, drops all-null columns, writes, and logs
the row count and path (not the dropped names). -/
def write_chunk (base_dir : String) (mode : IoMode) (asset_name : String)
    (batch_num : Nat) (df : Frame) (year month : Option Nat) : WriteOutcome :=
  if mode = .single then
    ⟨.error "write_chunk() not available in 'single' mode", [], []⟩
  else
    match path_for base_dir mode asset_name (some batch_num) year month with
    | none => ⟨.error "assert failure in _path", [], []⟩
    | some path =>
      let cleaned := drop_all_null_columns df
      ⟨.ok, [.mkdirs (dirname path), .writeParquet path cleaned],
        [.wroteRows mode cleaned.height path]⟩

/-- The argument of `write_single`: a streamed (lazy) or materialized
frame. -/
inductive FrameObj where
| lazy (lf : Frame)
| materialized (df : Frame)
deriving DecidableEq, Repr

/-- The names `write_single` reports as dropped:
`set(obj.columns) - set(cleaned.columns)` (order immaterial; the source
sorts them for display). -/
def removedNames (df : Frame) : List String :=
  df.names.filter (fun n => !(drop_all_null_columns df).names.contains n)

/-- `write_single`: refuses chunk modes before touching the filesystem;
streams a lazy frame exactly as produced (no pruning), or prunes
all-null columns of a materialized frame and logs the dropped names. -/
def write_single (base_dir : String) (mode : IoMode) (asset_name : String)
    (obj : FrameObj) : WriteOutcome :=
  if mode ≠ .single then
    ⟨.error "write_single() only valid in 'single' mode", [], []⟩
  else
    let path := single_path base_dir asset_name
    match obj with
    | .lazy lf =>
      ⟨.ok, [.mkdirs (dirname path), .sinkParquet path lf], [.streamedSingle path]⟩
    | .materialized df =>
      let cleaned := drop_all_null_columns df
      let removed := removedNames df
      ⟨.ok, [.mkdirs (dirname path), .writeParquet path cleaned],
        (if removed.isEmpty then [] else [.droppedAllNull removed.length removed]) ++
          [.wroteSingle path]⟩

/-- A frame with an all-null column `x` and a kept column `a`. -/
def fxW : Frame := ⟨[⟨"x", .dstr, [.vnull]⟩, ⟨"a", .dint, [.vint 1]⟩], 1⟩

/-! ### Warehouse glob autodetection (`w.py`) -/

/-- Fuel-bounded single-segment wildcard match: `*` matches any run of
characters within one path segment (fnmatch semantics, no `/`
crossing).  The fuel is spent one unit per recursive step. -/
def segMatchF : Nat → List Char → List Char → Bool
| 0, _, _ => false
| _ + 1, [], [] => true
| _ + 1, [], _ :: _ => false
| fuel + 1, '*' :: ps, [] => segMatchF fuel ps []
| fuel + 1, '*' :: ps, c :: ts => segMatchF fuel ps (c :: ts) || segMatchF fuel ('*' :: ps) ts
| _ + 1, _ :: _, [] => false
| fuel + 1, p :: ps, c :: ts => p == c && segMatchF fuel ps ts

/-- Single-segment match with always-sufficient fuel (each step consumes
one unit and shortens pattern + text by at least one). -/
def segMatch (p t : List Char) : Bool :=
  segMatchF (p.length + t.length + 1) p t

/-- Fuel-bounded path match over segments: the whole segment `**`
(with `recursive=True`) matches zero or more segments. -/
def pathMatchF : Nat → List String → List String → Bool
| 0, _, _ => false
| _ + 1, [], [] => true
| _ + 1, [], _ :: _ => false
| fuel + 1, "**" :: ps, [] => pathMatchF fuel ps []
| fuel + 1, "**" :: ps, s :: ts =>
  pathMatchF fuel ps (s :: ts) || pathMatchF fuel ("**" :: ps) ts
| _ + 1, _ :: _, [] => false
| fuel + 1, p :: ps, s :: ts => segMatch p.toList s.toList && pathMatchF fuel ps ts

/-- Path match with always-sufficient fuel. -/
def pathMatch (ps ts : List String) : Bool :=
  pathMatchF (ps.length + ts.length + 1) ps ts

/-- The candidate (pattern, kind) pairs probed by `find_first_glob`, in
priority order. -/
def glob_candidates : List (List String × String) :=
  [(["year=*", "month=*", "*.parquet"], "hive_monthly"),
   (["year=*", "*.parquet"], "hive_yearly"),
   (["*.parquet"], "flat"),
   (["**", "*.parquet"], "deep")]

/-- `find_first_glob`: probe the candidates under `base/asset` in order
and return the first whose glob matches any file of the (modelled)
filesystem, with its kind. -/
def find_first_glob (fs : List (List String)) (base : List String) (asset : String) :
    Option (List String × String) :=
  (glob_candidates.find? (fun cand =>
      fs.any (fun f => pathMatch (base ++ [asset] ++ cand.1) f))).map
    (fun cand => (base ++ [asset] ++ cand.1, cand.2))

/-- `autodetect_glob`: search the configured layers in order and return
the first layer's hit. -/
def autodetect_glob (fs : List (List String)) (layers : List (List String))
    (asset : String) : Option (List String × String) :=
  match layers with
  | [] => none
  | base :: rest =>
    match find_first_glob fs base asset with
    | some got => some got
    | none => autodetect_glob fs rest asset

/-- The C9 witness filesystem: parquet files exist only under
`year=2023/month=01/`. -/
def fsHiveW : List (List String) :=
  [["data", "clean", "a", "year=2023", "month=01", "f0.parquet"],
   ["data", "clean", "a", "year=2023", "month=01", "f1.parquet"]]

end EasyNyc

open EasyNyc

/-- C1: `date_column` is present and first in every `auto_transform`
output, and is an all-null timestamp column when the ordering field was
absent — but when the ordering field is present as a string column, the
code leaves `date_column` with the string dtype, not a timestamp type:
`generic_transform` never casts the `date_cols` set (it only reads
`dtype_overrides`), contradicting `_auto_transform`'s own docstring
("guarantees the ordering field is present as a Datetime"). -/
theorem c1_date_column_dtype_bug :
    (auto_transform cfgTs none "ts ASC" frameTsPresent).map
        (fun g => (g.cols.map Col.name, g.cols.map Col.dtype))
      = some (["date_column", "ts"], [Dtype.dstr, Dtype.dstr]) ∧
    Dtype.dstr ≠ Dtype.ddatetime ∧
    auto_transform cfgTs none "ts ASC" frameTsAbsent
      = some ⟨[⟨"date_column", .ddatetime, [.vnull]⟩,
               ⟨"other_col", .dstr, [.vstr "x"]⟩,
               ⟨"ts", .ddatetime, [.vnull]⟩], 1⟩ := by
  refine ⟨rfl, by decide, rfl⟩

/-- C2: the transform is claimed to cast every column listed in
`date_cols`/`int_cols`/`float_cols`/`bool_cols`; in the code
`generic_transform` casts only by `dtype_overrides`, so a `fiscal_year`
column declared in `int_cols` passes through as an untouched string —
while the same cast requested through `dtype_overrides` does apply,
non-strictly (an unparseable cell becomes a typed null). -/
theorem c2_declared_casts_ignored_bug :
    auto_transform cfgIntCast none "month ASC" frameFiscal
      = some ⟨[⟨"date_column", .ddatetime, [.vnull]⟩,
               ⟨"fiscal_year", .dstr, [.vstr "2020"]⟩,
               ⟨"month", .ddatetime, [.vnull]⟩], 1⟩ ∧
    generic_transform frameFiscal { dtype_overrides := [("fiscal_year", .dint)] } none
      = some ⟨[⟨"fiscal_year", .dint, [.vint 2020]⟩], 1⟩ ∧
    generic_transform ⟨[⟨"Fiscal Year", .dstr, [.vstr "n/a"]⟩], 1⟩
        { dtype_overrides := [("fiscal_year", .dint)] } none
      = some ⟨[⟨"fiscal_year", .dint, [.vnull]⟩], 1⟩ := by
  refine ⟨rfl, rfl, rfl⟩


/-- C3: with a transport that raises a connection failure or read timeout
on the first two attempts and succeeds (non-empty) on the third, `fetch`
returns that result after exactly 3 attempts; with a transport that
raises on every attempt, `fetch` propagates the error after exactly 4
attempts (1 initial + `_MAX_READ_RETRIES` = 3 retries). -/
theorem c3_fetch_retry_counts (e : String) (ps : Params)
    (t t2 : Nat → TransportResult) (pay : List Record)
    (h1 : t 1 = .terr) (h2 : t 2 = .terr) (h3 : t 3 = .tok pay) (hne : pay ≠ [])
    (hall : ∀ n, t2 n = .terr) :
    fetch_data none e ps t = ⟨.success pay 3, some (e, ps, pay)⟩ ∧
    fetch_data none e ps t2 = ⟨.raised 4, none⟩ := by
  constructor
  · simp [fetch_data, fetch_net, fetch_go, h1, h2, h3, hne, maxReadRetries, maxEmptyRetries]
  · simp [fetch_data, fetch_net, fetch_go, hall, maxReadRetries, maxEmptyRetries]

/-- Witness for C3 at a concrete transport pair. -/
theorem c3_fetch_retry_counts_witness :
    tFailTwice 1 = .terr ∧ tFailTwice 2 = .terr ∧
    tFailTwice 3 = .tok [[("id", Val.vstr "1")]] ∧
    ([[("id", Val.vstr "1")]] : List Record) ≠ [] ∧
    fetch_data none "ep" [] tFailTwice
      = ⟨.success [[("id", Val.vstr "1")]] 3, some ("ep", [], [[("id", Val.vstr "1")]])⟩ ∧
    fetch_data none "ep" [] tAlwaysErr = ⟨.raised 4, none⟩ := by
  have h := c3_fetch_retry_counts "ep" [] tFailTwice tAlwaysErr [[("id", Val.vstr "1")]]
    rfl rfl rfl (by decide) (fun n => rfl)
  exact ⟨rfl, rfl, rfl, by decide, h.1, h.2⟩

/-- C4: a successful fetch leaves the single cache slot holding exactly
`(endpoint, params, payload)`, and a repeat call with the identical pair
answers from the slot with the same payload and zero network attempts —
for every transport, i.e. without any network request. -/
theorem c4_single_slot_cache (st : CacheSlot) (e : String) (ps : Params)
    (t : Nat → TransportResult) (pay : List Record) (n : Nat) (st2 : CacheSlot)
    (h : fetch_data st e ps t = ⟨.success pay n, st2⟩) :
    st2 = some (e, ps, pay) ∧
    ∀ t2, fetch_data st2 e ps t2 = ⟨.success pay 0, st2⟩ := by
  have hnet : ∀ st0 : CacheSlot, fetch_net st0 e ps t = ⟨.success pay n, st2⟩ →
      st2 = some (e, ps, pay) := by
    intro st0 h0
    unfold fetch_net at h0
    cases hgo : fetch_go t 1 with
    | raised m =>
      rw [hgo] at h0
      simp at h0
    | success p m =>
      rw [hgo] at h0
      simp only [FetchResult.mk.injEq, FetchOut.success.injEq] at h0
      obtain ⟨⟨hp, hm⟩, hc⟩ := h0
      rw [← hc, hp]
  have hst2 : st2 = some (e, ps, pay) := by
    cases st with
    | none =>
      refine hnet none ?_
      simpa [fetch_data] using h
    | some c =>
      obtain ⟨e', p', payload⟩ := c
      by_cases hc : e' = e ∧ p' = ps
      · rw [fetch_data, if_pos hc] at h
        simp only [FetchResult.mk.injEq, FetchOut.success.injEq] at h
        obtain ⟨⟨hp, hm⟩, hcc⟩ := h
        rw [← hcc, hc.1, hc.2, hp]
      · refine hnet (some (e', p', payload)) ?_
        rw [fetch_data, if_neg hc] at h
        exact h
  refine ⟨hst2, fun t2 => ?_⟩
  rw [hst2]
  simp [fetch_data]

/-- Witness for C4 at a concrete first call. -/
theorem c4_single_slot_cache_witness :
    fetch_data none "ep" [] tOkOnce
      = ⟨.success [[("id", Val.vint 7)]] 1, some ("ep", [], [[("id", Val.vint 7)]])⟩ ∧
    (some ("ep", ([] : Params), [[("id", Val.vint 7)]]) : CacheSlot)
      = some ("ep", [], [[("id", Val.vint 7)]]) ∧
    fetch_data (some ("ep", [], [[("id", Val.vint 7)]])) "ep" [] tAlwaysErr
      = ⟨.success [[("id", Val.vint 7)]] 0, some ("ep", [], [[("id", Val.vint 7)]])⟩ := by
  have hfirst : fetch_data none "ep" [] tOkOnce
      = ⟨.success [[("id", Val.vint 7)]] 1, some ("ep", [], [[("id", Val.vint 7)]])⟩ := by
    simp [fetch_data, fetch_net, fetch_go, tOkOnce, maxEmptyRetries]
  have h := c4_single_slot_cache none "ep" [] tOkOnce [[("id", Val.vint 7)]] 1
    (some ("ep", [], [[("id", Val.vint 7)]])) hfirst
  exact ⟨hfirst, h.1, h.2 tAlwaysErr⟩


/-- Offset-paging loop invariant: starting at offset `b*limit` with batch
counter `b`, if the next `k` pages are non-empty and the one after is
empty, the loop writes exactly those `k` pages with consecutive batch
numbers `b+1, ..., b+k` at offsets advancing by `limit`. -/
theorem medium_raw_go_spec (pages : Nat → List Record) (limit : Nat) :
    ∀ (k b : Nat) (acc : List ChunkWrite) (fuel : Nat),
      (∀ n, n < k → pages ((b + n) * limit) ≠ []) →
      pages ((b + k) * limit) = [] →
      k + 1 ≤ fuel →
      medium_raw_go pages limit (b * limit) b acc fuel
        = some (acc.reverse ++
            (List.range k).map (fun i => ⟨b + i + 1, (b + i) * limit, pages ((b + i) * limit)⟩)) := by
  intro k
  induction k with
  | zero =>
    intro b acc fuel _ hempty hfuel
    match fuel, hfuel with
    | f + 1, _ =>
      have h0 : pages (b * limit) = [] := by simpa using hempty
      simp [medium_raw_go, h0]
  | succ k ih =>
    intro b acc fuel hne hempty hfuel
    match fuel, hfuel with
    | f + 1, hf =>
      have h0 : pages (b * limit) ≠ [] := by
        have := hne 0 (Nat.succ_pos k)
        simpa using this
      have hstep : b * limit + limit = (b + 1) * limit := by ring
      have ih' := ih (b + 1) (⟨b + 1, b * limit, pages (b * limit)⟩ :: acc) f
        (fun n hn => by
          have := hne (n + 1) (by omega)
          simpa [Nat.add_assoc, Nat.add_comm, Nat.add_left_comm] using this)
        (by
          have : b + 1 + k = b + (k + 1) := by omega
          rw [this]
          exact hempty)
        (by omega)
      simp only [medium_raw_go, h0, if_neg]
      rw [hstep]
      rw [ih']
      simp [List.range_succ_eq_map, List.map_map]
      intro a _
      have hba : b + 1 + a = b + (a + 1) := by omega
      exact ⟨hba, Or.inl hba, by rw [hba]⟩

/-- When no page at any probed offset is ever empty, the loop never
terminates (no fuel suffices): the empty page is the sole termination
signal. -/
theorem medium_raw_go_no_empty (pages : Nat → List Record) (limit : Nat)
    (hne : ∀ n, pages (n * limit) ≠ []) :
    ∀ (fuel b : Nat) (acc : List ChunkWrite),
      medium_raw_go pages limit (b * limit) b acc fuel = none := by
  intro fuel
  induction fuel with
  | zero => intro b acc; rfl
  | succ f ih =>
    intro b acc
    have h0 := hne b
    have hstep : b * limit + limit = (b + 1) * limit := by ring
    simp only [medium_raw_go, h0, if_neg, hstep]
    exact ih (b + 1) _

/-- C5: the medium-tier raw loop starts at offset 0, advances the offset
by exactly `limit` after each non-empty page, writes the `i`-th non-empty
page as batch number `i+1` (consecutive from 1), and terminates exactly
when a fetch returns zero records — with no other termination check: a
page source that never returns an empty page never terminates. -/
theorem c5_medium_raw_pagination (pages pagesInf : Nat → List Record)
    (limit N fuel : Nat)
    (hne : ∀ n, n < N → pages (n * limit) ≠ [])
    (hempty : pages (N * limit) = [])
    (hfuel : N + 1 ≤ fuel)
    (hinf : ∀ n, pagesInf (n * limit) ≠ []) :
    medium_raw pages limit fuel
      = some ((List.range N).map (fun i => ⟨i + 1, i * limit, pages (i * limit)⟩)) ∧
    ∀ fuel2, medium_raw pagesInf limit fuel2 = none := by
  constructor
  · have h := medium_raw_go_spec pages limit N 0 [] fuel
      (fun n hn => by simpa using hne n hn) (by simpa using hempty) hfuel
    simpa [medium_raw] using h
  · intro fuel2
    have h := medium_raw_go_no_empty pagesInf limit hinf fuel2 0 []
    simpa [medium_raw] using h

/-- Witness for C5: three pages of limit 2, then an empty page; and a
never-empty source at fuel 7. -/
theorem c5_medium_raw_pagination_witness :
    medium_raw pages3W 2 4
      = some [⟨1, 0, [[("v", Val.vint 0)]]⟩, ⟨2, 2, [[("v", Val.vint 2)]]⟩,
              ⟨3, 4, [[("v", Val.vint 4)]]⟩] ∧
    medium_raw pagesInfW 2 7 = none := by
  have h := c5_medium_raw_pagination pages3W pagesInfW 2 3 4
    (by decide) (by decide) (by omega) (fun n => by simp [pagesInfW])
  refine ⟨?_, h.2 7⟩
  rw [h.1]
  decide

/-- Finding a column by name in a frame built by mapping a name-preserving
column constructor over a name list picks the constructor's column. -/
theorem find_map_names (g : String → Col) (hg : ∀ n, (g n).name = n) (x : String) :
    ∀ ns : List String, x ∈ ns →
      (ns.map g).find? (fun c => c.name == x) = some (g x) := by
  intro ns
  induction ns with
  | nil => intro h; simp at h
  | cons n ns ih =>
    intro h
    by_cases hn : n = x
    · subst hn
      rw [List.map_cons]
      refine List.find?_cons_of_pos _ ?_
      simp [hg]
    · rw [List.map_cons, List.find?_cons_of_neg _ (by simp [hg, hn])]
      refine ih ?_
      rcases List.mem_cons.mp h with h1 | h1
      · exact absurd h1.symm hn
      · exact h1

/-- A frame without a column named `x` yields no `find?` hit for it. -/
theorem find_none_of_not_mem (f : Frame) (x : String) (hx : x ∉ f.names) :
    f.cols.find? (fun c => c.name == x) = none := by
  rw [List.find?_eq_none]
  intro c hc
  simp only [beq_iff_eq]
  intro hcx
  exact hx (hcx ▸ List.mem_map_of_mem Col.name hc)

/-- C6: the name-based union with dtype relaxation used by consolidation,
applied to a first batch lacking column `x` and a second batch having it,
produces a merged frame whose row count is the exact sum of the two input
row counts and whose `x` column holds null in every row coming from the
first batch. -/
theorem c6_union_pads_null (f1 f2 : Frame) (x : String)
    (h2 : ∀ c ∈ f2.cols, c.vals.length = f2.height)
    (hx1 : x ∉ f1.names) (hx2 : x ∈ f2.names) :
    (concat_diagonal_relaxed [f1, f2]).height = f1.height + f2.height ∧
    ((concat_diagonal_relaxed [f1, f2]).cols.find? (fun c => c.name == x)).map
        (fun c => (c.vals.length, c.vals.take f1.height))
      = some (f1.height + f2.height, List.replicate f1.height Val.vnull) := by
  constructor
  · simp [concat_diagonal_relaxed]
  · have hxu : x ∈ unionNames [f1, f2] := by
      simp only [unionNames, List.foldl_cons, List.foldl_nil, List.nil_append]
      rw [List.mem_append]
      right
      rw [List.mem_filter]
      refine ⟨hx2, ?_⟩
      simp only [Bool.not_eq_eq_eq_not, Bool.not_true]
      have hmem : x ∉ List.filter (fun n => ! List.contains [] n) f1.names := by
        intro hmem
        exact hx1 (List.mem_filter.mp hmem).1
      simpa using hmem
    have hfind := find_map_names (unionCol [f1, f2]) (fun n => rfl) x
      (unionNames [f1, f2]) hxu
    rw [concat_diagonal_relaxed]
    simp only at hfind ⊢
    rw [hfind]
    rw [Option.map_some']
    obtain ⟨c2, hc2⟩ : ∃ c2, f2.cols.find? (fun c => c.name == x) = some c2 := by
      rcases List.mem_map.mp hx2 with ⟨c, hcmem, hcx⟩
      have : ∃ c', c' ∈ f2.cols ∧ (fun c => c.name == x) c' = true :=
        ⟨c, hcmem, by simp [hcx]⟩
      rcases List.find?_isSome.mpr this with h
      exact Option.isSome_iff_exists.mp h
    have hc2mem : c2 ∈ f2.cols := List.mem_of_find?_eq_some hc2
    have hc2len : c2.vals.length = f2.height := h2 c2 hc2mem
    rw [unionCol]
    simp only [List.flatMap_cons, List.flatMap_nil, List.append_nil]
    rw [find_none_of_not_mem f1 x hx1, hc2]
    simp only [Option.some.injEq, Prod.mk.injEq]
    constructor
    · simp [hc2len]
    · exact List.take_left' (by simp)


/-- Witness for C6 at two concrete one-row frames. -/
theorem c6_union_pads_null_witness :
    (concat_diagonal_relaxed [f1W, f2W]).height = f1W.height + f2W.height ∧
    ((concat_diagonal_relaxed [f1W, f2W]).cols.find? (fun c => c.name == "x")).map
        (fun c => (c.vals.length, c.vals.take f1W.height))
      = some (f1W.height + f2W.height, List.replicate f1W.height Val.vnull) :=
  c6_union_pads_null f1W f2W "x" (by decide) (by decide) (by decide)

/-- Day addition that stays inside one month. -/
theorem addDays_within (y m : Nat) :
    ∀ (k d : Nat), d + k ≤ daysInMonth y m →
      addDays ⟨y, m, d⟩ k = ⟨y, m, d + k⟩ := by
  intro k
  induction k with
  | zero => intro d _; rfl
  | succ k ih =>
    intro d h
    have hd : d < daysInMonth y m := by omega
    show addDays (nextDay ⟨y, m, d⟩) k = _
    rw [nextDay]
    simp only [hd, if_pos]
    rw [ih (d + 1) (by omega)]
    congr 1
    omega

/-- Every month has between 28 and 31 days. -/
theorem daysInMonth_bounds (y m : Nat) :
    28 ≤ daysInMonth y m ∧ daysInMonth y m ≤ 31 := by
  rw [daysInMonth]
  split
  · split <;> omega
  · split <;> omega

/-- The source's month step: from the first of a month, adding 32 days
and resetting the day lands exactly on the first of the next month. -/
theorem step_month (y m : Nat) :
    replaceDay1 (addDays ⟨y, m, 1⟩ 32) = firstOfNextMonth ⟨y, m, 1⟩ := by
  obtain ⟨h28, h31⟩ := daysInMonth_bounds y m
  have hadd : ∀ (a b : Nat) (c : PyDate), addDays c (a + b) = addDays (addDays c a) b := by
    intro a
    induction a with
    | zero =>
      intro b c
      rw [Nat.zero_add]
      rfl
    | succ a iha =>
      intro b c
      have h : a + 1 + b = (a + b) + 1 := by omega
      rw [h]
      show addDays (nextDay c) (a + b) = addDays (addDays (nextDay c) a) b
      exact iha b (nextDay c)
  set dim := daysInMonth y m with hdim
  have hsplit : 32 = (dim - 1) + (1 + (32 - dim)) := by omega
  rw [hsplit, hadd]
  rw [addDays_within y m (dim - 1) 1 (by omega)]
  have h1 : (1 + (dim - 1)) = dim := by omega
  rw [h1, hadd 1 (32 - dim)]
  have h2 : addDays ⟨y, m, dim⟩ 1 = nextDay ⟨y, m, dim⟩ := rfl
  rw [h2, nextDay]
  have hcond : ¬ ((⟨y, m, dim⟩ : PyDate).d < daysInMonth y m) := by
    show ¬ (dim < dim)
    omega
  rw [if_neg hcond]
  by_cases hm : m < 12
  · rw [if_pos hm]
    rw [addDays_within y (m + 1) (32 - dim) 1 ?_]
    · rw [replaceDay1, firstOfNextMonth]
      simp [hm]
    · have := (daysInMonth_bounds y (m + 1)).1
      omega
  · rw [if_neg hm]
    rw [addDays_within (y + 1) 1 (32 - dim) 1 ?_]
    · rw [replaceDay1, firstOfNextMonth]
      simp [hm]
    · have := (daysInMonth_bounds (y + 1) 1).1
      omega

/-- An earlier date is in the same or an earlier month. -/
theorem monthIdx_le_of_dateLt (a b : PyDate) (ha : a.m ≤ 12) (hb : 1 ≤ b.m)
    (h : dateLt a b = true) : monthIdx a ≤ monthIdx b := by
  simp only [dateLt, decide_eq_true_eq] at h
  simp only [monthIdx]
  omega

/-- A date in a strictly later month is not earlier. -/
theorem dateLt_false_of_monthIdx_gt (a b : PyDate) (ha : a.m ≤ 12) (hb : 1 ≤ b.m)
    (h : monthIdx b < monthIdx a) : dateLt a b = false := by
  simp only [monthIdx] at h
  simp only [dateLt, decide_eq_false_iff_not]
  omega

/-- Stepping to the first of the next month advances the month index by
one. -/
theorem monthIdx_firstOfNextMonth (c : PyDate) (hm : c.m ≤ 12) :
    monthIdx (firstOfNextMonth c) = monthIdx c + 1 := by
  rw [firstOfNextMonth]
  by_cases h : c.m < 12
  · rw [if_pos h]
    simp only [monthIdx]
    omega
  · rw [if_neg h]
    simp only [monthIdx]
    omega

/-- The month step preserves day-1 normalization and month bounds. -/
theorem firstOfNextMonth_shape (c : PyDate) :
    (firstOfNextMonth c).d = 1 ∧ 1 ≤ (firstOfNextMonth c).m ∧ (firstOfNextMonth c).m ≤ 12 ∨
    ¬ c.m ≤ 12 := by
  by_cases hm : c.m ≤ 12
  · left
    rw [firstOfNextMonth]
    by_cases h : c.m < 12
    · rw [if_pos h]
      refine ⟨rfl, by simp, ?_⟩
      show c.m + 1 ≤ 12
      omega
    · rw [if_neg h]
      exact ⟨rfl, by simp, by simp⟩
  · right; exact hm

/-- Loop invariant of `_monthly_windows`: starting from a first-of-month
date with enough fuel, the loop terminates and emits consecutive monthly
windows that start before `end` and whose last window reaches `end`. -/
theorem monthly_windows_go_spec (e : PyDate) (he : 1 ≤ e.m) :
    ∀ (fuel : Nat) (cur : PyDate), cur.d = 1 → 1 ≤ cur.m → cur.m ≤ 12 →
      monthIdx e + 1 - monthIdx cur ≤ fuel →
      ∃ W, monthly_windows_go e cur fuel = some W ∧
        (dateLt cur e = true → W.head? = some (cur, firstOfNextMonth cur)) ∧
        (dateLt cur e = false → W = []) ∧
        (∀ w ∈ W, w.2 = firstOfNextMonth w.1 ∧ dateLt w.1 e = true) ∧
        W.Chain' (fun a b => a.2 = b.1) ∧
        (∀ w, W.getLast? = some w → dateLt w.2 e = false) := by
  intro fuel
  induction fuel with
  | zero =>
    intro cur hd hm1 hm2 hfuel
    have hlt : dateLt cur e = false :=
      dateLt_false_of_monthIdx_gt cur e hm2 he (by omega)
    refine ⟨[], ?_, ?_, fun _ => rfl, by simp, by simp, by simp⟩
    · rw [monthly_windows_go, hlt]
      simp
    · intro h
      rw [h] at hlt
      cases hlt
  | succ f ih =>
    intro cur hd hm1 hm2 hfuel
    by_cases hlt : dateLt cur e = true
    case neg =>
      have hlt' : dateLt cur e = false := by
        simpa using hlt
      refine ⟨[], ?_, ?_, fun _ => rfl, by simp, by simp, by simp⟩
      · rw [monthly_windows_go, hlt']
        simp
      · intro h
        rw [h] at hlt'
        cases hlt'
    case pos =>
      obtain ⟨y, m, d⟩ := cur
      simp only at hd hm1 hm2
      subst hd
      have hstep : replaceDay1 (addDays ⟨y, m, 1⟩ 32) = firstOfNextMonth ⟨y, m, 1⟩ :=
        step_month y m
      have hidx : monthIdx (firstOfNextMonth ⟨y, m, 1⟩) = monthIdx ⟨y, m, 1⟩ + 1 :=
        monthIdx_firstOfNextMonth _ hm2
      have hle : monthIdx ⟨y, m, 1⟩ ≤ monthIdx e :=
        monthIdx_le_of_dateLt _ _ hm2 he hlt
      have hshape := firstOfNextMonth_shape ⟨y, m, 1⟩
      rcases hshape with ⟨hnd, hnm1, hnm2⟩ | hbad
      case inr => exact absurd hm2 hbad
      obtain ⟨W', hW', hh, hf, hall, hchain, hlast⟩ :=
        ih (firstOfNextMonth ⟨y, m, 1⟩) hnd hnm1 hnm2 (by omega)
      refine ⟨(⟨y, m, 1⟩, firstOfNextMonth ⟨y, m, 1⟩) :: W', ?_, ?_, ?_, ?_, ?_, ?_⟩
      · rw [monthly_windows_go, if_pos hlt]
        simp only [hstep, hW', Option.map_some']
      · intro _
        rfl
      · intro h
        rw [h] at hlt
        cases hlt
      · intro w hw
        rcases List.mem_cons.mp hw with h1 | h1
        · subst h1
          exact ⟨rfl, hlt⟩
        · exact hall w h1
      · refine List.chain'_cons'.mpr ⟨?_, hchain⟩
        intro b hb
        by_cases hn : dateLt (firstOfNextMonth ⟨y, m, 1⟩) e = true
        · have := hh hn
          rw [this] at hb
          simp at hb
          rw [← hb]
        · have h0 : dateLt (firstOfNextMonth ⟨y, m, 1⟩) e = false := by simpa using hn
          rw [hf h0] at hb
          simp at hb
      · cases W' with
        | nil =>
          intro w hw
          simp at hw
          subst hw
          by_cases hn : dateLt (firstOfNextMonth ⟨y, m, 1⟩) e = true
          · have := hh hn
            simp at this
          · simpa using hn
        | cons w0 W'' =>
          intro w hw
          rw [List.getLast?_cons_cons] at hw
          exact hlast w hw

/-- Resetting the day to 1 keeps a date earlier than any later date. -/
theorem dateLt_replaceDay1 (s e : PyDate) (hd : 1 ≤ s.d) (h : dateLt s e = true) :
    dateLt (replaceDay1 s) e = true := by
  simp only [dateLt, replaceDay1, decide_eq_true_eq] at h ⊢
  omega

/-- C7: for a large-tier asset with `start_date` earlier than `end_date`,
the raw windows start at the first of `start_date`'s month, each window
ends at (and the next begins on) the first day of the following month,
every window starts before `end_date` and the last window reaches
`end_date`; each window's `$where` clause constrains the ordering token
to the half-open `[window_start, window_end)` range. -/
theorem c7_monthly_windows (order_field : String) (start e : PyDate) (fuel : Nat)
    (hm1 : 1 ≤ start.m) (hm2 : start.m ≤ 12) (hd : 1 ≤ start.d) (he : 1 ≤ e.m)
    (hlt : dateLt start e = true)
    (hfuel : monthIdx e + 1 - monthIdx start ≤ fuel) :
    ∃ W, monthly_windows start e fuel = some W ∧
      W.head? = some (replaceDay1 start, firstOfNextMonth (replaceDay1 start)) ∧
      (∀ w ∈ W, w.2 = firstOfNextMonth w.1 ∧ dateLt w.1 e = true) ∧
      W.Chain' (fun a b => a.2 = b.1) ∧
      (∀ w, W.getLast? = some w → dateLt w.2 e = false) ∧
      large_raw_where_clauses order_field start e fuel
        = some (W.map (fun w =>
            window_where_clause (extract_order_token order_field) w.1 w.2)) := by
  have hidx : monthIdx (replaceDay1 start) = monthIdx start := rfl
  obtain ⟨W, hW, hh, _, hall, hchain, hlast⟩ :=
    monthly_windows_go_spec e he fuel (replaceDay1 start) rfl hm1 hm2 (by omega)
  have hlt' : dateLt (replaceDay1 start) e = true := dateLt_replaceDay1 start e hd hlt
  refine ⟨W, hW, hh hlt', hall, hchain, hlast, ?_⟩
  rw [large_raw_where_clauses, monthly_windows, hW, Option.map_some']

theorem c7_monthly_windows_witness :
    (monthly_windows ⟨2020, 7, 15⟩ ⟨2021, 1, 1⟩ 7).isSome = true ∧
    monthly_windows ⟨2020, 7, 15⟩ ⟨2021, 1, 1⟩ 7
      = some [(⟨2020, 7, 1⟩, ⟨2020, 8, 1⟩), (⟨2020, 8, 1⟩, ⟨2020, 9, 1⟩),
              (⟨2020, 9, 1⟩, ⟨2020, 10, 1⟩), (⟨2020, 10, 1⟩, ⟨2020, 11, 1⟩),
              (⟨2020, 11, 1⟩, ⟨2020, 12, 1⟩), (⟨2020, 12, 1⟩, ⟨2021, 1, 1⟩)] := by
  obtain ⟨W, hW, -, -, -, -, -⟩ := c7_monthly_windows "ts ASC" ⟨2020, 7, 15⟩ ⟨2021, 1, 1⟩ 7
    (by decide) (by decide) (by decide) (by decide) (by decide) (by decide)
  exact ⟨by rw [hW]; rfl, by decide⟩


/-- C8 counterexample: a chunk write of a batch with an all-null column
drops the column from the written frame but logs only the row count and
path — no log entry carries the dropped names, contrary to the claim
that every non-streamed write logs them. -/
theorem c8_chunk_log_counterexample :
    (write_chunk "base" .flat_chunk "as" 1 fxW none none).effects
      = [.mkdirs "base/as",
         .writeParquet "base/as/as_1.parquet" ⟨[⟨"a", .dint, [.vint 1]⟩], 1⟩] ∧
    (write_chunk "base" .flat_chunk "as" 1 fxW none none).logs
      = [.wroteRows .flat_chunk 1 "base/as/as_1.parquet"] :=
  ⟨rfl, rfl⟩

/-- C8 (amended): every non-streamed write (chunk or materialized
single) drops exactly the columns that are entirely null across the
batch before writing; the materialized single write logs the dropped
names (when any), while the chunk write logs only the row count and
path; a streamed single write persists the frame exactly as produced,
with no pruning. -/
theorem c8_prune_and_log (base : String) (mode : IoMode) (asset : String) (batch : Nat)
    (df lf : Frame) (year month : Option Nat) (path : String)
    (hmode : ¬ mode = .single)
    (hwf : df.wf)
    (hpath : path_for base mode asset (some batch) year month = some path) :
    write_chunk base mode asset batch df year month
      = ⟨.ok, [.mkdirs (dirname path), .writeParquet path (drop_all_null_columns df)],
         [.wroteRows mode df.height path]⟩ ∧
    (∀ c ∈ df.cols, (c ∈ (drop_all_null_columns df).cols ↔ ¬ ∀ v ∈ c.vals, v = Val.vnull)) ∧
    (∀ c ∈ df.cols, (c.name ∈ removedNames df ↔ ∀ v ∈ c.vals, v = Val.vnull)) ∧
    write_single base .single asset (.materialized df)
      = ⟨.ok, [.mkdirs (dirname (single_path base asset)),
               .writeParquet (single_path base asset) (drop_all_null_columns df)],
         (if (removedNames df).isEmpty then []
          else [.droppedAllNull (removedNames df).length (removedNames df)]) ++
           [.wroteSingle (single_path base asset)]⟩ ∧
    write_single base .single asset (.lazy lf)
      = ⟨.ok, [.mkdirs (dirname (single_path base asset)),
               .sinkParquet (single_path base asset) lf],
         [.streamedSingle (single_path base asset)]⟩ := by
  have hkeep : ∀ c ∈ df.cols,
      (c ∈ (drop_all_null_columns df).cols ↔ ¬ ∀ v ∈ c.vals, v = Val.vnull) := by
    intro c hc
    have hlen : c.vals.length = df.height := hwf.1 c hc
    rw [drop_all_null_columns]
    simp only [List.mem_filter, decide_eq_true_eq]
    constructor
    · rintro ⟨-, hcount⟩ hall
      have hceq : c.vals.countP (fun v => v == Val.vnull) = c.vals.length := by
        rw [List.countP_eq_length]
        intro v hv
        simp [hall v hv]
      omega
    · intro hnall
      refine ⟨hc, ?_⟩
      have hle : c.vals.countP (fun v => v == Val.vnull) ≤ c.vals.length :=
        List.countP_le_length _
      have hne : c.vals.countP (fun v => v == Val.vnull) ≠ c.vals.length := by
        intro heq
        refine hnall ?_
        intro v hv
        have := List.countP_eq_length.mp heq v hv
        simpa using this
      omega
  have hname : ∀ c ∈ df.cols,
      (c.name ∈ removedNames df ↔ ∀ v ∈ c.vals, v = Val.vnull) := by
    intro c hc
    have hmemnames : c.name ∈ df.names := List.mem_map_of_mem Col.name hc
    have hdropmem : c.name ∈ (drop_all_null_columns df).names ↔
        c ∈ (drop_all_null_columns df).cols := by
      constructor
      · intro h
        rcases List.mem_map.mp h with ⟨c', hc'mem, hc'name⟩
        have hc'df : c' ∈ df.cols := List.mem_of_mem_filter hc'mem
        have hcc : c' = c := List.inj_on_of_nodup_map hwf.2 hc'df hc hc'name
        rw [← hcc]
        exact hc'mem
      · intro h
        exact List.mem_map_of_mem Col.name h
    rw [removedNames, List.mem_filter]
    constructor
    · rintro ⟨-, hnot⟩
      have hnotmem : c.name ∉ (drop_all_null_columns df).names := by
        simpa using hnot
      by_contra hnall
      exact hnotmem (hdropmem.mpr ((hkeep c hc).mpr hnall))
    · intro hall
      refine ⟨hmemnames, ?_⟩
      have hnotkeep : c ∉ (drop_all_null_columns df).cols := fun h =>
        ((hkeep c hc).mp h) hall
      have hnotmem : c.name ∉ (drop_all_null_columns df).names := fun h =>
        hnotkeep (hdropmem.mp h)
      simpa using hnotmem
  refine ⟨?_, hkeep, hname, ?_, ?_⟩
  · rw [write_chunk, if_neg hmode, hpath]
    rfl
  · rfl
  · rfl

/-- Witness for C8 at a concrete frame with one all-null column. -/
theorem c8_prune_and_log_witness :
    write_chunk "b" .flat_chunk "as" 1 fxW none none
      = ⟨.ok, [.mkdirs (dirname "b/as/as_1.parquet"),
               .writeParquet "b/as/as_1.parquet" (drop_all_null_columns fxW)],
         [.wroteRows .flat_chunk fxW.height "b/as/as_1.parquet"]⟩ ∧
    write_single "b" .single "as" (.materialized fxW)
      = ⟨.ok, [.mkdirs (dirname (single_path "b" "as")),
               .writeParquet (single_path "b" "as") (drop_all_null_columns fxW)],
         (if (removedNames fxW).isEmpty then []
          else [.droppedAllNull (removedNames fxW).length (removedNames fxW)]) ++
           [.wroteSingle (single_path "b" "as")]⟩ ∧
    write_single "b" .single "as" (.lazy fxW)
      = ⟨.ok, [.mkdirs (dirname (single_path "b" "as")),
               .sinkParquet (single_path "b" "as") fxW],
         [.streamedSingle (single_path "b" "as")]⟩ := by
  have h := c8_prune_and_log "b" .flat_chunk "as" 1 fxW fxW none none
    "b/as/as_1.parquet" (by decide) (by decide) rfl
  exact ⟨h.1, h.2.2.2.1, h.2.2.2.2⟩

/-- C10: `write_chunk` raises in `single` mode and `write_single` raises
in both chunk modes, in every case before any filesystem effect: the
effect list is empty on error. -/
theorem c10_mode_guard_errors (base asset : String) (batch : Nat) (df : Frame)
    (obj : FrameObj) (year month : Option Nat) :
    write_chunk base .single asset batch df year month
      = ⟨.error "write_chunk() not available in 'single' mode", [], []⟩ ∧
    write_single base .flat_chunk asset obj
      = ⟨.error "write_single() only valid in 'single' mode", [], []⟩ ∧
    write_single base .hive_chunk asset obj
      = ⟨.error "write_single() only valid in 'single' mode", [], []⟩ :=
  ⟨rfl, rfl, rfl⟩

/-- C9: warehouse layout autodetection probes the candidate globs in the
fixed priority order hive_monthly, hive_yearly, flat, deep across the
search layers in order and returns the first candidate matching any
file; with parquet files only under `year=2023/month=01/`, the detected
kind is `"hive_monthly"` (and hence not `"flat"` or `"deep"`). -/
theorem c9_autodetect_priority (fs : List (List String)) (base : List String)
    (asset : String) (pat : List String) (kind : String) (layers : List (List String))
    (h : find_first_glob fs base asset = some (pat, kind)) :
    (∃ pre post cand, glob_candidates = pre ++ cand :: post ∧
        pat = base ++ [asset] ++ cand.1 ∧ kind = cand.2 ∧
        fs.any (fun f => pathMatch pat f) = true ∧
        ∀ c ∈ pre, fs.any (fun f => pathMatch (base ++ [asset] ++ c.1) f) = false) ∧
    autodetect_glob fs (base :: layers) asset = some (pat, kind) ∧
    autodetect_glob fsHiveW [["data", "clean"]] "a"
      = some (["data", "clean", "a", "year=*", "month=*", "*.parquet"], "hive_monthly") := by
  refine ⟨?_, ?_, by decide⟩
  · rw [find_first_glob] at h
    rcases hfind : glob_candidates.find? (fun cand =>
        fs.any (fun f => pathMatch (base ++ [asset] ++ cand.1) f)) with - | cand
    · rw [hfind] at h
      cases h
    · rw [hfind] at h
      simp only [Option.map_some', Option.some.injEq, Prod.mk.injEq] at h
      obtain ⟨hpat, hkind⟩ := h
      rcases List.find?_eq_some.mp hfind with ⟨hp, pre, post, hsplit, hpre⟩
      refine ⟨pre, post, cand, hsplit, hpat.symm, hkind.symm, ?_, ?_⟩
      · rw [hpat] at hp
        exact hp
      · intro c hc
        have := hpre c hc
        simpa using this
  · rw [autodetect_glob, h]

/-- Witness for C9 at the concrete hive-monthly filesystem. -/
theorem c9_autodetect_priority_witness :
    find_first_glob fsHiveW ["data", "clean"] "a"
      = some (["data", "clean", "a", "year=*", "month=*", "*.parquet"], "hive_monthly") ∧
    autodetect_glob fsHiveW [["data", "clean"]] "a"
      = some (["data", "clean", "a", "year=*", "month=*", "*.parquet"], "hive_monthly") ∧
    "hive_monthly" ≠ "flat" ∧ "hive_monthly" ≠ "deep" := by
  have h := c9_autodetect_priority fsHiveW ["data", "clean"] "a"
    ["data", "clean", "a", "year=*", "month=*", "*.parquet"] "hive_monthly" [] (by decide)
  exact ⟨by decide, h.2.1, by decide, by decide⟩
